import Mathlib

/-!
Presence registry and message relay of `backend/server.js`.

A shallow embedding of the socket section of `backend/server.js`
(lines 85-114): the `onlineUsers` map, the three socket handlers
(`user:join`, `message:send`, `disconnect`) and the history query
`Message.find().sort({ timestamp: 1 })`.

Modelling decisions.

* JavaScript values are the inductive type `JSVal`; objects are association
  lists of string keys.
* `onlineUsers` is a JavaScript `Map`: an insertion-ordered association list
  without duplicate keys (`JSMap`).  `set` on a present key overwrites the
  value in place, `set` on an absent key appends, `delete` removes the entry.
* The `message:send` handler is `async` and suspends at `await message.save()`.
  It is embedded as its two synchronous halves: `messageSendBegin` (everything
  before the `await`: the document is constructed, the schema default
  `Date.now` fills `timestamp`) and `messageSendResume` (everything after the
  `await`).  The document lives in the closure of the handler, so the event
  that resumes the handler carries it.  Other events may be handled between
  the two halves.
* `MessageSchema` types `sender` and `text` as `String`: `new Message` casts
  the values it is given (`castString`), and a value that cannot be cast is
  recorded on the document, whose save then always rejects.
* Whether the write of a valid document succeeds and the reading of
  `Date.now` come from outside the program and are inputs of the events.  A
  save that fails stores nothing.
* `io.emit` addresses the sockets connected at the time of the call; the
  socket that fires `disconnect` has already left that set.
* No code catches the rejection of the `async` handler and nothing listens for
  `unhandledRejection`, so the runtime ends the process at the first handler
  that rejects: `run` stops there and `handled` is the part of a sequence the
  process got to handle.
* Numbers are integers; their string form is the decimal one.
-/

namespace AsyncChat

/-! ## JavaScript values -/

mutual
/-- A JavaScript value as it arrives in a socket event payload. -/
inductive JSVal where
  | undefined
  | null
  | bool (b : Bool)
  | num (n : Int)
  | str (s : String)
  | obj (fields : JSFields)
  deriving DecidableEq
/-- The own properties of an object, in order. -/
inductive JSFields where
  | nil
  | cons (key : String) (val : JSVal) (rest : JSFields)
  deriving DecidableEq
end

/-- How an `async` handler can reject. -/
inductive Rejection where
  /-- Reading a property of `undefined` or `null`. -/
  | typeError
  /-- The promise returned by `message.save()` rejected. -/
  | saveError
  deriving DecidableEq

/-- Own-property lookup; an absent property reads as `undefined`. -/
def JSFields.get : JSFields → String → JSVal
  | .nil, _ => .undefined
  | .cons k v rest, key => if k = key then v else rest.get key

/-- The expression `v.key` for the keys `sender` and `text`: it throws a
`TypeError` on `undefined` and `null`, reads the property of an object, and is
`undefined` on the other primitives (neither key is on their prototypes). -/
def JSVal.getProp : JSVal → String → Except Rejection JSVal
  | .undefined, _ => .error .typeError
  | .null, _ => .error .typeError
  | .obj fields, key => .ok (fields.get key)
  | _, _ => .ok .undefined

/-! ## The JavaScript `Map` -/

/-- The entries of `Map.prototype.set`: overwrite in place when the key is
present, append when it is not. -/
def setEntries : List (String × JSVal) → String → JSVal → List (String × JSVal)
  | [], k, v => [(k, v)]
  | (k', v') :: es, k, v =>
    if k' = k then (k, v) :: es else (k', v') :: setEntries es k v

/-- A JavaScript `Map` from strings to values: its entries in insertion order,
no key twice. -/
structure JSMap where
  entries : List (String × JSVal)
  nodup : (entries.map Prod.fst).Nodup
  deriving DecidableEq

namespace JSMap

/-- The call `new Map()`. -/
def empty : JSMap := ⟨[], List.nodup_nil⟩

/-- The call `Map.prototype.get`, with `none` for a key that is absent. -/
def get? (m : JSMap) (k : String) : Option JSVal := m.entries.lookup k

/-- The call `Map.prototype.has`. -/
def has (m : JSMap) (k : String) : Bool := (m.get? k).isSome

/-- The property `Map.prototype.size`. -/
def size (m : JSMap) : Nat := m.entries.length

/-- The call `Map.prototype.set`. -/
def set (m : JSMap) (k : String) (v : JSVal) : JSMap :=
  ⟨setEntries m.entries k v, by
    have key : ∀ es : List (String × JSVal), (es.map Prod.fst).Nodup →
        (∀ x, x ∈ (setEntries es k v).map Prod.fst → x = k ∨ x ∈ es.map Prod.fst) ∧
        ((setEntries es k v).map Prod.fst).Nodup := by
      intro es
      induction es with
      | nil => intro _; simp [setEntries]
      | cons e es ih =>
        obtain ⟨k', v'⟩ := e
        intro h
        rw [List.map_cons, List.nodup_cons] at h
        obtain ⟨ih1, ih2⟩ := ih h.2
        unfold setEntries
        split_ifs with hk
        · subst hk
          refine ⟨fun x hx => ?_, ?_⟩
          · simp only [List.map_cons, List.mem_cons] at hx ⊢
            tauto
          · simpa [List.nodup_cons] using h
        · refine ⟨fun x hx => ?_, ?_⟩
          · simp only [List.map_cons, List.mem_cons] at hx ⊢
            rcases hx with hx | hx
            · exact Or.inr (Or.inl hx)
            · rcases ih1 x hx with h1 | h1
              · exact Or.inl h1
              · exact Or.inr (Or.inr h1)
          · rw [List.map_cons, List.nodup_cons]
            refine ⟨fun hmem => ?_, ih2⟩
            rcases ih1 k' hmem with h1 | h1
            · exact hk h1
            · exact h.1 h1
    exact (key m.entries m.nodup).2⟩

/-- The call `Map.prototype.delete`. -/
def delete (m : JSMap) (k : String) : JSMap :=
  ⟨m.entries.filter (fun e => e.1 ≠ k),
    (List.filter_sublist m.entries).map Prod.fst |>.nodup m.nodup⟩

/-- The expression `Array.from(map.values())`: the values in insertion order. -/
def values (m : JSMap) : List JSVal := m.entries.map Prod.snd

end JSMap

/-! ## Documents, broadcasts, state -/

/-- The schema type `String` of lines 36-37, as the database library applies
it to a value given to `new Message`: `undefined` and `null` stay, a string
stays, a number or boolean becomes its string form, an object with a non-empty
string `_id` becomes that `_id`, and any other object cannot be cast
(`none`). -/
def castString : JSVal → Option JSVal
  | .undefined => some .undefined
  | .null => some .null
  | .str s => some (.str s)
  | .num n => some (.str (toString n))
  | .bool b => some (.str (if b then "true" else "false"))
  | .obj fields =>
    match fields.get "_id" with
    | .str id => if id = "" then none else some (.str id)
    | _ => none

/-- A document of `MessageSchema`: `sender` and `text` of type `String`,
`timestamp` with default `Date.now`. `invalid` records that a value could not
be cast when the document was built; such a document fails validation when it
is saved. -/
structure Message where
  sender : JSVal
  text : JSVal
  timestamp : Nat
  invalid : Bool
  deriving DecidableEq

/-- The expression `new Message({ sender, text })` evaluated when `Date.now`
reads `now`: both values are cast, a value that cannot be cast leaves its
field unset. -/
def newMessage (sender text : JSVal) (now : Nat) : Message :=
  { sender := (castString sender).getD .undefined,
    text := (castString text).getD .undefined,
    timestamp := now,
    invalid := (castString sender).isNone || (castString text).isNone }

/-- A call of `io.emit`: the event name, the sockets it reaches, the payload. -/
inductive Emit where
  | usersUpdate (recipients : List String) (users : List JSVal)
  | messageReceive (recipients : List String) (message : Message)
  deriving DecidableEq

/-- The sockets a broadcast is addressed to. -/
def Emit.recipients : Emit → List String
  | .usersUpdate r _ => r
  | .messageReceive r _ => r

/-- The payload of a `users:update` broadcast. -/
def Emit.users? : Emit → Option (List JSVal)
  | .usersUpdate _ us => some us
  | .messageReceive _ _ => none

/-- The payload of a `message:receive` broadcast. -/
def Emit.message? : Emit → Option Message
  | .usersUpdate _ _ => none
  | .messageReceive _ m => some m

/-- The shared state of the server: the connected sockets (kept by the
socket library), the `onlineUsers` map, and the `messages` collection in the
order the documents were stored. -/
structure State where
  sockets : List String
  onlineUsers : JSMap
  messages : List Message
  deriving DecidableEq

/-- The state at process start: nobody connected, `new Map()`. The collection
is whatever the database holds. -/
def State.init (stored : List Message) : State :=
  ⟨[], JSMap.empty, stored⟩

/-! ## The handlers -/

/-- The `connection` event of line 93: the socket is connected; the callback
only logs and installs the three handlers. -/
def onConnection (s : State) (id : String) : State :=
  { s with sockets := if id ∈ s.sockets then s.sockets else s.sockets ++ [id] }

/-- The `user:join` handler, lines 96-99. -/
def onUserJoin (s : State) (id : String) (userData : JSVal) : State × List Emit :=
  let s1 := { s with onlineUsers := s.onlineUsers.set id userData }
  (s1, [Emit.usersUpdate s1.sockets s1.onlineUsers.values])

/-- The `message:send` handler up to its `await`, lines 102-105: the document
is built from `messageData.sender` and `messageData.text`, the schema default
stamps it with the current reading of `Date.now`. -/
def messageSendBegin (messageData : JSVal) (now : Nat) : Except Rejection Message := do
  let sender ← messageData.getProp "sender"
  let text ← messageData.getProp "text"
  pure (newMessage sender text now)

/-- The `message:send` handler from its `await` on, lines 106-107. `written`
says whether the database accepted the write. The save resolves when the
document is valid and the write was accepted: the document is then in the
collection and is broadcast. Otherwise the save rejects, the `await` throws
and the handler ends there. -/
def messageSendResume (s : State) (message : Message) (written : Bool) :
    Except Rejection (State × List Emit) :=
  if written && !message.invalid then
    .ok ({ s with messages := s.messages ++ [message] },
         [Emit.messageReceive s.sockets message])
  else
    .error .saveError

/-- The `disconnect` handler, lines 110-113. The socket has left the set of
connected sockets when the handler runs. -/
def onDisconnect (s : State) (id : String) : State × List Emit :=
  let s1 := { s with sockets := s.sockets.filter (fun x => x ≠ id),
                     onlineUsers := s.onlineUsers.delete id }
  (s1, [Emit.usersUpdate s1.sockets s1.onlineUsers.values])

/-- The history query of line 86, `Message.find().sort({ timestamp: 1 })`:
the stored documents by ascending `timestamp`. -/
def listAll (s : State) : List Message :=
  s.messages.insertionSort (fun a b => a.timestamp ≤ b.timestamp)

/-! ## Events and runs -/

/-- What the event loop delivers to the server. -/
inductive Event where
  | connection (id : String)
  | userJoin (id : String) (userData : JSVal)
  | messageSend (id : String) (messageData : JSVal) (now : Nat)
  | saveSettled (message : Message) (written : Bool)
  | disconnect (id : String)
  deriving DecidableEq

/-- The effect of one event, or of a sequence of events. -/
structure Outcome where
  state : State
  emits : List Emit
  rejection : Option Rejection
  deriving DecidableEq

/-- One turn of the event loop. A handler that rejects does so before it
changes the state or emits. -/
def handle (s : State) : Event → Outcome
  | .connection id => ⟨onConnection s id, [], none⟩
  | .userJoin id userData =>
    let r := onUserJoin s id userData
    ⟨r.1, r.2, none⟩
  | .messageSend _ messageData now =>
    match messageSendBegin messageData now with
    | .ok _ => ⟨s, [], none⟩
    | .error e => ⟨s, [], some e⟩
  | .saveSettled message written =>
    match messageSendResume s message written with
    | .ok r => ⟨r.1, r.2, none⟩
    | .error e => ⟨s, [], some e⟩
  | .disconnect id =>
    let r := onDisconnect s id
    ⟨r.1, r.2, none⟩

/-- A sequence of events handled in turn, up to the first handler that
rejects: the rejection is handled nowhere and ends the process, the events
after it are not handled. The result is the last state, every broadcast
(oldest first) and the rejection that ended the process, if any. -/
def run (s : State) : List Event → Outcome
  | [] => ⟨s, [], none⟩
  | e :: es =>
    match (handle s e).rejection with
    | some r => ⟨(handle s e).state, (handle s e).emits, some r⟩
    | none =>
      ⟨(run (handle s e).state es).state,
       (handle s e).emits ++ (run (handle s e).state es).emits,
       (run (handle s e).state es).rejection⟩

/-- The events of a sequence that the process handles: all of them up to and
including the first whose handler rejects. -/
def handled (s : State) : List Event → List Event
  | [] => []
  | e :: es =>
    match (handle s e).rejection with
    | some _ => [e]
    | none => e :: handled (handle s e).state es

/-- The saves in flight after a sequence of events, given those in flight
before it; `none` when a save settles that no handler is waiting for. -/
def awaiting : List Message → List Event → Option (List Message)
  | pending, [] => some pending
  | pending, .messageSend _ messageData now :: es =>
    match messageSendBegin messageData now with
    | .ok m => awaiting (pending ++ [m]) es
    | .error _ => awaiting pending es
  | pending, .saveSettled m _ :: es =>
    if m ∈ pending then awaiting (pending.erase m) es else none
  | pending, _ :: es => awaiting pending es

/-- The message of an event that completes a save successfully. -/
def Event.saved? : Event → Option Message
  | .saveSettled m written => if written && !m.invalid then some m else none
  | _ => none

/-- The payload of the most recent `users:update` broadcast, if any. -/
def lastUsersUpdate (emits : List Emit) : Option (List JSVal) :=
  (emits.filterMap Emit.users?).getLast?

/-! ## The presence set in the words of the specification -/

/-- The connections that announce in a sequence, one entry per announce. -/
def announcers (evs : List Event) : List String :=
  evs.filterMap (fun e => match e with
    | .userJoin id _ => some id
    | _ => none)

/-- Whether the connection has a disconnect event in the sequence. -/
def disconnected (evs : List Event) (c : String) : Bool :=
  evs.any (fun e => decide (e = Event.disconnect c))

/-- The descriptor of the most recent announce of a connection, if any. -/
def mostRecentAnnounce : List Event → String → Option JSVal
  | [], _ => none
  | e :: es, c =>
    match mostRecentAnnounce es c with
    | some d => some d
    | none =>
      match e with
      | .userJoin id d => if id = c then some d else none
      | _ => none

/-- No connection announces after its own disconnect. -/
def noAnnounceAfterDisconnect : List Event → Bool
  | [] => true
  | .disconnect c :: es => decide (c ∉ announcers es) && noAnnounceAfterDisconnect es
  | _ :: es => noAnnounceAfterDisconnect es

/-- The presence set the specification expects after a sequence: for each
connection that has announced and has not disconnected, the descriptor of its
most recent announce. -/
def specSnapshot (evs : List Event) : List JSVal :=
  (((announcers evs).dedup).filter (fun c => !disconnected evs c)).filterMap
    (mostRecentAnnounce evs)

/-! ## Lemmas on the map -/

theorem JSMap.ext_entries {a b : JSMap} (h : a.entries = b.entries) : a = b := by
  cases a; cases b; simp only at h; subst h; rfl

theorem lookup_cons_ite (es : List (String × JSVal)) (k1 : String) (v1 : JSVal) (y : String) :
    List.lookup y ((k1, v1) :: es) = if y = k1 then some v1 else List.lookup y es := by
  by_cases h : y = k1
  · subst h; simp [List.lookup]
  · have hb : (y == k1) = false := by simpa using h
    simp [List.lookup, hb, h]

theorem lookup_setEntries (es : List (String × JSVal)) (k : String) (v : JSVal) (y : String) :
    (setEntries es k v).lookup y = if y = k then some v else es.lookup y := by
  induction es with
  | nil => simp [setEntries, lookup_cons_ite]
  | cons e es ih =>
    obtain ⟨k1, v1⟩ := e
    unfold setEntries
    by_cases hk : k1 = k
    · subst hk
      rw [if_pos rfl, lookup_cons_ite, lookup_cons_ite]
      split_ifs <;> rfl
    · rw [if_neg hk, lookup_cons_ite, lookup_cons_ite, ih]
      by_cases hy : y = k1
      · subst hy; simp [hk]
      · simp [hy]

theorem lookup_filter_ne (es : List (String × JSVal)) (k y : String) :
    (es.filter (fun e => e.1 ≠ k)).lookup y = if y = k then none else es.lookup y := by
  induction es with
  | nil => simp
  | cons e es ih =>
    obtain ⟨k1, v1⟩ := e
    by_cases hk : k1 = k
    · subst hk
      have hf : List.filter (fun e : String × JSVal => decide (e.1 ≠ k1)) ((k1, v1) :: es)
          = List.filter (fun e : String × JSVal => decide (e.1 ≠ k1)) es := by
        rw [List.filter_cons]; simp
      rw [hf, ih, lookup_cons_ite]
      split_ifs <;> rfl
    · have hf : List.filter (fun e : String × JSVal => decide (e.1 ≠ k)) ((k1, v1) :: es)
          = (k1, v1) :: List.filter (fun e : String × JSVal => decide (e.1 ≠ k)) es := by
        rw [List.filter_cons]; simp [hk]
      rw [hf, lookup_cons_ite, lookup_cons_ite, ih]
      by_cases hy : y = k1
      · subst hy; simp [hk]
      · simp [hy]

theorem lookup_eq_none_iff_not_mem (es : List (String × JSVal)) (k : String) :
    es.lookup k = none ↔ k ∉ es.map Prod.fst := by
  induction es with
  | nil => simp
  | cons e es ih =>
    obtain ⟨k1, v1⟩ := e
    rw [lookup_cons_ite]
    by_cases hk : k = k1
    · subst hk; simp
    · simp [hk, ih]

theorem length_setEntries (es : List (String × JSVal)) (k : String) (v : JSVal) :
    (setEntries es k v).length = if (es.lookup k).isSome then es.length else es.length + 1 := by
  induction es with
  | nil => simp [setEntries]
  | cons e es ih =>
    obtain ⟨k1, v1⟩ := e
    unfold setEntries
    by_cases hk : k1 = k
    · subst hk; simp [lookup_cons_ite]
    · have hk2 : ¬ k = k1 := fun h => hk h.symm
      rw [if_neg hk, lookup_cons_ite, if_neg hk2, List.length_cons, ih]
      split_ifs <;> rfl

theorem JSMap.get?_set (m : JSMap) (k : String) (v : JSVal) (y : String) :
    (m.set k v).get? y = if y = k then some v else m.get? y :=
  lookup_setEntries m.entries k v y

theorem JSMap.get?_delete (m : JSMap) (k y : String) :
    (m.delete k).get? y = if y = k then none else m.get? y :=
  lookup_filter_ne m.entries k y

theorem JSMap.delete_eq_self_iff (m : JSMap) (k : String) :
    m.delete k = m ↔ m.get? k = none := by
  constructor
  · intro h
    have := JSMap.get?_delete m k k
    rw [h] at this
    simpa using this
  · intro h
    apply JSMap.ext_entries
    have hk : k ∉ m.entries.map Prod.fst := (lookup_eq_none_iff_not_mem _ _).1 h
    show m.entries.filter (fun e => e.1 ≠ k) = m.entries
    rw [List.filter_eq_self]
    intro e he
    have : e.1 ≠ k := fun h1 => hk (h1 ▸ List.mem_map_of_mem Prod.fst he)
    simpa using this

theorem filter_ne_eq_self (es : List (String × JSVal)) (k : String)
    (hk : k ∉ es.map Prod.fst) : es.filter (fun e => e.1 ≠ k) = es := by
  rw [List.filter_eq_self]
  intro e he
  have : e.1 ≠ k := fun h1 => hk (h1 ▸ List.mem_map_of_mem Prod.fst he)
  simpa using this

theorem filter_ne_eq_eraseIdx (es : List (String × JSVal)) (k : String)
    (h : (es.map Prod.fst).Nodup) :
    es.filter (fun e => e.1 ≠ k) = es.eraseIdx (es.findIdx (fun e => decide (e.1 = k))) := by
  induction es with
  | nil => simp
  | cons e es ih =>
    obtain ⟨k1, v1⟩ := e
    rw [List.map_cons, List.nodup_cons] at h
    by_cases hk : k1 = k
    · subst hk
      have hf : List.filter (fun e : String × JSVal => decide (e.1 ≠ k1)) ((k1, v1) :: es)
          = List.filter (fun e : String × JSVal => decide (e.1 ≠ k1)) es := by
        rw [List.filter_cons]; simp
      rw [hf, filter_ne_eq_self es k1 h.1]
      simp [List.findIdx_cons]
    · have hf : List.filter (fun e : String × JSVal => decide (e.1 ≠ k)) ((k1, v1) :: es)
          = (k1, v1) :: List.filter (fun e : String × JSVal => decide (e.1 ≠ k)) es := by
        rw [List.filter_cons]; simp [hk]
      rw [hf, ih h.2]
      simp [List.findIdx_cons, hk]

theorem map_snd_eraseIdx (es : List (String × JSVal)) (i : Nat) :
    (es.eraseIdx i).map Prod.snd = (es.map Prod.snd).eraseIdx i := by
  induction es generalizing i with
  | nil => simp
  | cons e es ih =>
    cases i with
    | zero => simp
    | succ i => simp [ih]

theorem values_perm_of_lookup (es : List (String × JSVal)) (k : String) (d : JSVal)
    (h : (es.map Prod.fst).Nodup) (hd : es.lookup k = some d) :
    (es.map Prod.snd).Perm (d :: (es.filter (fun e => e.1 ≠ k)).map Prod.snd) := by
  induction es with
  | nil => simp at hd
  | cons e es ih =>
    obtain ⟨k1, v1⟩ := e
    rw [List.map_cons, List.nodup_cons] at h
    rw [lookup_cons_ite] at hd
    by_cases hk : k1 = k
    · subst hk
      have hf : List.filter (fun e : String × JSVal => decide (e.1 ≠ k1)) ((k1, v1) :: es)
          = List.filter (fun e : String × JSVal => decide (e.1 ≠ k1)) es := by
        rw [List.filter_cons]; simp
      rw [if_pos rfl] at hd
      cases hd
      rw [hf, filter_ne_eq_self es k1 h.1]
      exact List.Perm.refl _
    · have hk2 : ¬ k = k1 := fun h => hk h.symm
      have hf : List.filter (fun e : String × JSVal => decide (e.1 ≠ k)) ((k1, v1) :: es)
          = (k1, v1) :: List.filter (fun e : String × JSVal => decide (e.1 ≠ k)) es := by
        rw [List.filter_cons]; simp [hk]
      rw [if_neg hk2] at hd
      rw [hf]
      exact ((ih h.2 hd).cons v1).trans (List.Perm.swap _ _ _)

/-! ## The registry operations (claims C6, C9, C10) -/

/-- Claim C10. An announce by connection `c` with descriptor `d` of any shape
stores `d` under `c` (so a later announce overwrites an earlier one), leaves
the entry of every other connection as it was, and makes the registry one
entry larger when `c` had no entry and no larger when it had one. -/
theorem announce_registers_last_write (s : State) (c : String) (d : JSVal) :
    (handle s (.userJoin c d)).state.onlineUsers = s.onlineUsers.set c d ∧
    (∀ y, (s.onlineUsers.set c d).get? y = if y = c then some d else s.onlineUsers.get? y) ∧
    (∀ d0, ((s.onlineUsers.set c d0).set c d).get? c = some d) ∧
    (s.onlineUsers.set c d).size =
      if s.onlineUsers.has c then s.onlineUsers.size else s.onlineUsers.size + 1 := by
  refine ⟨rfl, fun y => JSMap.get?_set _ _ _ _, fun d0 => ?_, ?_⟩
  · rw [JSMap.get?_set, if_pos rfl]
  · exact length_setEntries s.onlineUsers.entries c d

/-- Claim C9. Removing a connection from the registry always returns a
registry (no error case); removing it a second time changes nothing more;
removing a connection that has no entry leaves the registry as it is (and only
then); the entry of every other connection is as before. Two disconnect events
for the same connection leave the same state as one, and neither rejects. -/
theorem unregister_idempotent_total (s : State) (x : String) :
    (s.onlineUsers.delete x).delete x = s.onlineUsers.delete x ∧
    (s.onlineUsers.delete x = s.onlineUsers ↔ s.onlineUsers.get? x = none) ∧
    (∀ y, (s.onlineUsers.delete x).get? y = if y = x then none else s.onlineUsers.get? y) ∧
    (∀ y, ((s.onlineUsers.delete x).delete x).get? y =
      if y = x then none else s.onlineUsers.get? y) ∧
    (handle (handle s (.disconnect x)).state (.disconnect x)).state =
      (handle s (.disconnect x)).state ∧
    (handle s (.disconnect x)).rejection = none ∧
    (handle (handle s (.disconnect x)).state (.disconnect x)).rejection = none := by
  have h1 : (s.onlineUsers.delete x).delete x = s.onlineUsers.delete x := by
    rw [JSMap.delete_eq_self_iff, JSMap.get?_delete, if_pos rfl]
  refine ⟨h1, JSMap.delete_eq_self_iff _ _, fun y => JSMap.get?_delete _ _ _, fun y => ?_,
    ?_, rfl, rfl⟩
  · rw [h1, JSMap.get?_delete]
  · show (onDisconnect (onDisconnect s x).1 x).1 = (onDisconnect s x).1
    simp only [onDisconnect, h1, List.filter_filter, Bool.and_self]

/-- Claim C6. A disconnect of connection `x` leaves a registry in which `x`
has no entry and every other connection has the entry it had; the snapshot
after it is the snapshot before it with the one value at the position of `x`
taken out (nothing taken out when `x` had no entry). -/
theorem disconnect_removes_only_own_entry (s : State) (x : String) :
    (handle s (.disconnect x)).state.onlineUsers = s.onlineUsers.delete x ∧
    (∀ y, (s.onlineUsers.delete x).get? y = if y = x then none else s.onlineUsers.get? y) ∧
    (s.onlineUsers.delete x).values =
      s.onlineUsers.values.eraseIdx
        (s.onlineUsers.entries.findIdx (fun e => decide (e.1 = x))) ∧
    (match s.onlineUsers.get? x with
      | some d => s.onlineUsers.values.Perm (d :: (s.onlineUsers.delete x).values)
      | none => (s.onlineUsers.delete x).values = s.onlineUsers.values) := by
  refine ⟨rfl, fun y => JSMap.get?_delete _ _ _, ?_, ?_⟩
  · show (s.onlineUsers.entries.filter (fun e => e.1 ≠ x)).map Prod.snd = _
    rw [filter_ne_eq_eraseIdx _ _ s.onlineUsers.nodup]
    rw [map_snd_eraseIdx]
    rfl
  · cases hx : s.onlineUsers.get? x with
    | some d => exact values_perm_of_lookup _ _ _ s.onlineUsers.nodup hx
    | none =>
      show (s.onlineUsers.delete x).values = s.onlineUsers.values
      rw [(JSMap.delete_eq_self_iff _ _).2 hx]

/-! ## Runs -/

theorem handle_messageSend_state (s : State) (c : String) (messageData : JSVal) (now : Nat) :
    (handle s (.messageSend c messageData now)).state = s ∧
    (handle s (.messageSend c messageData now)).emits = [] := by
  cases h : messageSendBegin messageData now with
  | ok a => simp only [handle, h, and_self]
  | error e => simp only [handle, h, and_self]

theorem handle_saveSettled (s : State) (m : Message) (written : Bool) :
    handle s (.saveSettled m written) =
      if written && !m.invalid then
        ⟨{ s with messages := s.messages ++ [m] }, [Emit.messageReceive s.sockets m], none⟩
      else ⟨s, [], some .saveError⟩ := by
  by_cases h : (written && !m.invalid) = true
  · simp only [handle, messageSendResume, h, if_true]
  · simp only [handle, messageSendResume, h, if_false, Bool.false_eq_true]

theorem handle_rejected (s : State) (e : Event) (r : Rejection)
    (h : (handle s e).rejection = some r) :
    (handle s e).state = s ∧ (handle s e).emits = [] := by
  cases e with
  | connection id => cases h
  | userJoin id d => cases h
  | messageSend id d now => exact handle_messageSend_state s id d now
  | saveSettled m written =>
    rw [handle_saveSettled] at h ⊢
    split_ifs at h ⊢ with hw
    exact ⟨rfl, rfl⟩
  | disconnect id => cases h

theorem run_cons_none (s : State) (e : Event) (es : List Event)
    (h : (handle s e).rejection = none) :
    run s (e :: es) =
      ⟨(run (handle s e).state es).state,
       (handle s e).emits ++ (run (handle s e).state es).emits,
       (run (handle s e).state es).rejection⟩ := by
  simp only [run, h]

theorem run_cons_some (s : State) (e : Event) (es : List Event) (r : Rejection)
    (h : (handle s e).rejection = some r) :
    run s (e :: es) = ⟨s, [], some r⟩ := by
  obtain ⟨h1, h2⟩ := handle_rejected s e r h
  simp only [run, h, h1, h2]

theorem handled_cons_none (s : State) (e : Event) (es : List Event)
    (h : (handle s e).rejection = none) :
    handled s (e :: es) = e :: handled (handle s e).state es := by
  simp only [handled, h]

theorem handled_cons_some (s : State) (e : Event) (es : List Event) (r : Rejection)
    (h : (handle s e).rejection = some r) :
    handled s (e :: es) = [e] := by
  simp only [handled, h]

theorem handled_eq_self (evs : List Event) :
    ∀ s : State, (run s evs).rejection = none → handled s evs = evs := by
  induction evs with
  | nil => intro s _; rfl
  | cons e es ih =>
    intro s h
    cases hr : (handle s e).rejection with
    | some r => rw [run_cons_some s e es r hr] at h; cases h
    | none =>
      rw [run_cons_none s e es hr] at h
      rw [handled_cons_none s e es hr, ih _ h]

theorem run_append (xs ys : List Event) :
    ∀ s : State, (run s xs).rejection = none →
      run s (xs ++ ys) =
        ⟨(run (run s xs).state ys).state,
         (run s xs).emits ++ (run (run s xs).state ys).emits,
         (run (run s xs).state ys).rejection⟩ := by
  induction xs with
  | nil => intro s _; simp [run]
  | cons e es ih =>
    intro s h
    cases hr : (handle s e).rejection with
    | some r => rw [run_cons_some s e es r hr] at h; cases h
    | none =>
      rw [run_cons_none s e es hr] at h
      rw [List.cons_append, run_cons_none s e _ hr, run_cons_none s e es hr, ih _ h]
      simp only [List.append_assoc]

theorem handle_messages (s : State) (e : Event) :
    (handle s e).state.messages = s.messages ++ (Event.saved? e).toList ∧
    (handle s e).emits.filterMap Emit.message? = (Event.saved? e).toList := by
  cases e with
  | connection id => simp [handle, onConnection, Event.saved?]
  | userJoin id d => simp [handle, onUserJoin, Event.saved?, Emit.message?]
  | messageSend id d now =>
    have h := handle_messageSend_state s id d now
    simp [h.1, h.2, Event.saved?]
  | saveSettled m written =>
    rw [handle_saveSettled]
    by_cases hw : (written && !m.invalid) = true
    · simp [Event.saved?, hw, Emit.message?]
    · simp [Event.saved?, hw]
  | disconnect id => simp [handle, onDisconnect, Event.saved?, Emit.message?]

theorem run_messages (evs : List Event) :
    ∀ s : State,
      (run s evs).state.messages = s.messages ++ (handled s evs).filterMap Event.saved? ∧
      (run s evs).emits.filterMap Emit.message? = (handled s evs).filterMap Event.saved? := by
  induction evs with
  | nil => intro s; simp [run, handled]
  | cons e es ih =>
    intro s
    obtain ⟨h1, h2⟩ := handle_messages s e
    cases hr : (handle s e).rejection with
    | some r =>
      obtain ⟨k1, k2⟩ := handle_rejected s e r hr
      rw [run_cons_some s e es r hr, handled_cons_some s e es r hr]
      rw [k1] at h1
      rw [k2] at h2
      refine ⟨?_, ?_⟩
      · show s.messages = _
        cases hs : Event.saved? e with
        | none => simp [List.filterMap_cons, hs]
        | some m => rw [hs] at h2; simp at h2
      · show ([] : List Emit).filterMap Emit.message? = _
        cases hs : Event.saved? e with
        | none => simp [List.filterMap_cons, hs]
        | some m => rw [hs] at h2; simp at h2
    | none =>
      obtain ⟨i1, i2⟩ := ih (handle s e).state
      rw [run_cons_none s e es hr, handled_cons_none s e es hr]
      refine ⟨?_, ?_⟩
      · show (run (handle s e).state es).state.messages = _
        rw [i1, h1, List.append_assoc]
        congr 1
        cases hs : Event.saved? e <;> simp [List.filterMap_cons, hs]
      · show ((handle s e).emits ++ (run (handle s e).state es).emits).filterMap
          Emit.message? = _
        rw [List.filterMap_append, h2, i2]
        cases hs : Event.saved? e <;> simp [List.filterMap_cons, hs]

theorem handle_lastUsersUpdate (s : State) (e : Event) :
    (lastUsersUpdate (handle s e).emits).getD s.onlineUsers.values =
      (handle s e).state.onlineUsers.values := by
  cases e with
  | connection id => rfl
  | userJoin id d => rfl
  | messageSend id d now =>
    have h := handle_messageSend_state s id d now
    rw [h.1, h.2]; rfl
  | saveSettled m written =>
    rw [handle_saveSettled]
    split_ifs <;> rfl
  | disconnect id => rfl

theorem lastUsersUpdate_append (xs ys : List Emit) (d : List JSVal) :
    (lastUsersUpdate (xs ++ ys)).getD d =
      (lastUsersUpdate ys).getD ((lastUsersUpdate xs).getD d) := by
  unfold lastUsersUpdate
  rw [List.filterMap_append, List.getLast?_append]
  cases (List.filterMap Emit.users? ys).getLast? <;> simp

theorem run_lastUsersUpdate (evs : List Event) :
    ∀ s : State, (lastUsersUpdate (run s evs).emits).getD s.onlineUsers.values =
      (run s evs).state.onlineUsers.values := by
  induction evs with
  | nil => intro s; rfl
  | cons e es ih =>
    intro s
    cases hr : (handle s e).rejection with
    | some r => rw [run_cons_some s e es r hr]; rfl
    | none =>
      rw [run_cons_none s e es hr]
      show (lastUsersUpdate ((handle s e).emits ++ (run (handle s e).state es).emits)).getD _ =
        (run (handle s e).state es).state.onlineUsers.values
      rw [lastUsersUpdate_append, handle_lastUsersUpdate, ih]

theorem handle_sockets_mem (s : State) (e : Event) (c : String) (hc : c ∈ s.sockets)
    (he : e ≠ Event.disconnect c) : c ∈ (handle s e).state.sockets := by
  cases e with
  | connection id =>
    show c ∈ (if id ∈ s.sockets then s.sockets else s.sockets ++ [id])
    split_ifs
    · exact hc
    · exact List.mem_append_left _ hc
  | userJoin id d => exact hc
  | messageSend id d now => rw [(handle_messageSend_state s id d now).1]; exact hc
  | saveSettled m written =>
    rw [handle_saveSettled]
    split_ifs <;> exact hc
  | disconnect id =>
    show c ∈ s.sockets.filter (fun x => x ≠ id)
    have hne : c ≠ id := fun h => he (h ▸ rfl)
    simp [List.mem_filter, hc, hne]

theorem run_sockets_mem (evs : List Event) (c : String) :
    ∀ s : State, c ∈ s.sockets → Event.disconnect c ∉ evs → c ∈ (run s evs).state.sockets := by
  induction evs with
  | nil => intro s hc _; exact hc
  | cons e es ih =>
    intro s hc hd
    have he : e ≠ Event.disconnect c := fun h => hd (h ▸ List.mem_cons_self _ _)
    have hes : Event.disconnect c ∉ es := fun h => hd (List.mem_cons_of_mem _ h)
    cases hr : (handle s e).rejection with
    | some r => rw [run_cons_some s e es r hr]; exact hc
    | none =>
      rw [run_cons_none s e es hr]
      exact ih _ (handle_sockets_mem s e c hc he) hes

/-! ## The dispatcher (claims C2, C3, C5, C7, C8) -/

/-- Claim C5. An announce emits exactly one `users:update`, addressed to every
connected socket (whether it has announced or not), carrying the snapshot of
the registry right after the `set`; a disconnect emits exactly one, addressed
to the sockets that remain, carrying the snapshot right after the `delete`.
After any sequence of events the most recent `users:update` payload is the
current snapshot (the snapshot at the start when none was emitted). -/
theorem presence_broadcast_is_current (s : State) (c : String) (d : JSVal)
    (evs : List Event) :
    (handle s (.userJoin c d)).emits =
      [Emit.usersUpdate s.sockets (s.onlineUsers.set c d).values] ∧
    (handle s (.userJoin c d)).state.sockets = s.sockets ∧
    (handle s (.userJoin c d)).state.onlineUsers.values = (s.onlineUsers.set c d).values ∧
    (handle s (.disconnect c)).emits =
      [Emit.usersUpdate (s.sockets.filter (fun x => x ≠ c)) (s.onlineUsers.delete c).values] ∧
    (handle s (.disconnect c)).state.sockets = s.sockets.filter (fun x => x ≠ c) ∧
    (handle s (.disconnect c)).state.onlineUsers.values = (s.onlineUsers.delete c).values ∧
    (lastUsersUpdate (run s evs).emits).getD s.onlineUsers.values =
      (run s evs).state.onlineUsers.values :=
  ⟨rfl, rfl, rfl, rfl, rfl, rfl, run_lastUsersUpdate evs s⟩

/-- Claim C3. A `message:send` whose save fails (the write is refused, or the
document is invalid): neither half of the handler emits anything and neither
changes the collection (nor anything else in the state). In every run the documents broadcast as `message:receive` and the
documents added to the collection are exactly those of the saves that
succeeded among the events handled, so a failed save contributes no broadcast
and no entry. -/
theorem failed_save_no_broadcast_no_entry (s t : State) (c : String) (messageData : JSVal)
    (now : Nat) (m : Message) (evs : List Event) :
    (handle s (.messageSend c messageData now)).emits = [] ∧
    (handle s (.messageSend c messageData now)).state.messages = s.messages ∧
    (handle t (.saveSettled m false)).emits = [] ∧
    (handle t (.saveSettled m false)).state.messages = t.messages ∧
    Event.saved? (.saveSettled m false) = none ∧
    (∀ (a b : JSVal) (written : Bool),
      handle t (.saveSettled ⟨a, b, now, true⟩ written) = ⟨t, [], some .saveError⟩) ∧
    (run s evs).emits.filterMap Emit.message? = (handled s evs).filterMap Event.saved? ∧
    (run s evs).state.messages = s.messages ++ (handled s evs).filterMap Event.saved? := by
  have h := handle_messageSend_state s c messageData now
  refine ⟨h.2, by rw [h.1], rfl, rfl, rfl, fun a b written => ?_,
    (run_messages evs s).2, (run_messages evs s).1⟩
  rw [handle_saveSettled]
  simp

/-- Counterexample to C2 as stated: with `a` and `b` connected, `a` sends
the number 42 as sender and `true` as text and the save succeeds. The record
that is stored and broadcast holds the strings `42` and `true`, which are not
the submitted values. -/
theorem record_holds_string_cast :
    messageSendBegin (.obj (.cons "sender" (.num 42) (.cons "text" (.bool true) .nil))) 7
      = .ok ⟨.str "42", .str "true", 7, false⟩ ∧
    run ⟨["a", "b"], JSMap.empty, []⟩
      [.messageSend "a" (.obj (.cons "sender" (.num 42) (.cons "text" (.bool true) .nil))) 7,
       .saveSettled ⟨.str "42", .str "true", 7, false⟩ true] =
      ⟨⟨["a", "b"], JSMap.empty, [⟨.str "42", .str "true", 7, false⟩]⟩,
       [Emit.messageReceive ["a", "b"] ⟨.str "42", .str "true", 7, false⟩], none⟩ ∧
    (JSVal.obj (.cons "sender" (.num 42) (.cons "text" (.bool true) .nil))).getProp "sender"
      = .ok (.num 42) ∧
    (JSVal.obj (.cons "sender" (.num 42) (.cons "text" (.bool true) .nil))).getProp "text"
      = .ok (.bool true) ∧
    (⟨.str "42", .str "true", 7, false⟩ : Message).sender ≠ JSVal.num 42 ∧
    (⟨.str "42", .str "true", 7, false⟩ : Message).text ≠ JSVal.bool true := by
  refine ⟨rfl, rfl, rfl, rfl, by decide, by decide⟩

/-- Claim C2, amended. Connection `c`, connected (announced or not), sends
`messageData`; the handler builds the document `m`, which is valid; other
events `mid`, none of them the disconnect of `c` and none rejecting, are
handled while the save is in flight; then the save succeeds. The whole run
adds to the broadcasts of `mid` exactly one `message:receive`, addressed to
every socket connected when the save resolves, `c` among them, and carrying
`m`, which is also what was appended to the collection. The `sender` and
`text` of `m` are the submitted values as the schema type `String` casts
them: unchanged when the value is a string, `null` or absent. -/
theorem message_broadcast_to_all (s : State) (c : String) (messageData : JSVal) (now : Nat)
    (m : Message) (mid : List Event)
    (h : messageSendBegin messageData now = .ok m) (hv : m.invalid = false)
    (hc : c ∈ s.sockets) (hd : Event.disconnect c ∉ mid)
    (hr : (run s mid).rejection = none) :
    handle s (.messageSend c messageData now) = ⟨s, [], none⟩ ∧
    run s (.messageSend c messageData now :: (mid ++ [.saveSettled m true])) =
      ⟨{ (run s mid).state with messages := (run s mid).state.messages ++ [m] },
       (run s mid).emits ++ [Emit.messageReceive (run s mid).state.sockets m], none⟩ ∧
    c ∈ (run s mid).state.sockets ∧
    (∃ a b, messageData.getProp "sender" = .ok a ∧ messageData.getProp "text" = .ok b ∧
      castString a = some m.sender ∧ castString b = some m.text) ∧
    m.timestamp = now ∧
    (∀ x : String, castString (.str x) = some (.str x)) ∧
    castString .null = some .null ∧
    castString .undefined = some .undefined := by
  have hs : handle s (.messageSend c messageData now) = ⟨s, [], none⟩ := by
    simp only [handle, h]
  have hsr : (handle s (.messageSend c messageData now)).rejection = none := by rw [hs]
  have hset : handle (run s mid).state (.saveSettled m true) =
      ⟨{ (run s mid).state with messages := (run s mid).state.messages ++ [m] },
       [Emit.messageReceive (run s mid).state.sockets m], none⟩ := by
    rw [handle_saveSettled]; simp [hv]
  refine ⟨hs, ?_, run_sockets_mem mid c s hc hd, ?_, ?_, fun _ => rfl, rfl, rfl⟩
  · rw [run_cons_none s _ _ hsr, hs]
    show Outcome.mk (run s (mid ++ [.saveSettled m true])).state
      ([] ++ (run s (mid ++ [.saveSettled m true])).emits)
      (run s (mid ++ [.saveSettled m true])).rejection = _
    have hlast : run (run s mid).state [Event.saveSettled m true] =
        ⟨{ (run s mid).state with messages := (run s mid).state.messages ++ [m] },
         [Emit.messageReceive (run s mid).state.sockets m], none⟩ := by
      have h0 : (handle (run s mid).state (.saveSettled m true)).rejection = none := by
        rw [hset]
      rw [run_cons_none _ _ _ h0, hset]
      simp [run]
    rw [run_append mid _ s hr, hlast]
    simp
  · unfold messageSendBegin at h
    cases h1 : messageData.getProp "sender" with
    | error e => rw [h1] at h; cases h
    | ok a =>
      cases h2 : messageData.getProp "text" with
      | error e => rw [h1, h2] at h; cases h
      | ok b =>
        rw [h1, h2] at h
        have hm : newMessage a b now = m := by
          simpa [bind, Except.bind, pure, Except.pure] using h
        refine ⟨a, b, rfl, rfl, ?_, ?_⟩
        · rw [← hm] at hv ⊢
          unfold newMessage at hv ⊢
          cases hca : castString a with
          | none => simp [hca] at hv
          | some v => simp
        · rw [← hm] at hv ⊢
          unfold newMessage at hv ⊢
          cases hcb : castString b with
          | none => simp [hcb] at hv
          | some v => simp
  · unfold messageSendBegin at h
    cases h1 : messageData.getProp "sender" with
    | error e => rw [h1] at h; cases h
    | ok a =>
      cases h2 : messageData.getProp "text" with
      | error e => rw [h1, h2] at h; cases h
      | ok b =>
        rw [h1, h2] at h
        have hm : newMessage a b now = m := by
          simpa [bind, Except.bind, pure, Except.pure] using h
        rw [← hm]; rfl

/-- Witness for C2 amended: with `a` and `b` connected and nobody announced,
`a` sends `alice` / `hi` at time 7; while the save is in flight `c` connects
and `b` announces; then the save succeeds. -/
theorem message_broadcast_to_all_witness :
    messageSendBegin (.obj (.cons "sender" (.str "alice") (.cons "text" (.str "hi") .nil))) 7
      = .ok ⟨.str "alice", .str "hi", 7, false⟩ ∧
    "a" ∈ (⟨["a", "b"], JSMap.empty, []⟩ : State).sockets ∧
    Event.disconnect "a" ∉ [Event.connection "c", Event.userJoin "b" (.str "bob")] ∧
    (run ⟨["a", "b"], JSMap.empty, []⟩
      [.connection "c", .userJoin "b" (.str "bob")]).rejection = none ∧
    run ⟨["a", "b"], JSMap.empty, []⟩
      (.messageSend "a" (.obj (.cons "sender" (.str "alice") (.cons "text" (.str "hi") .nil))) 7
        :: ([.connection "c", .userJoin "b" (.str "bob")] ++
            [.saveSettled ⟨.str "alice", .str "hi", 7, false⟩ true])) =
      ⟨⟨["a", "b", "c"], JSMap.empty.set "b" (.str "bob"),
        [⟨.str "alice", .str "hi", 7, false⟩]⟩,
       [Emit.usersUpdate ["a", "b", "c"] [.str "bob"],
        Emit.messageReceive ["a", "b", "c"] ⟨.str "alice", .str "hi", 7, false⟩], none⟩ :=
  ⟨rfl, by decide, by decide, rfl,
   (message_broadcast_to_all ⟨["a", "b"], JSMap.empty, []⟩ "a"
    (.obj (.cons "sender" (.str "alice") (.cons "text" (.str "hi") .nil))) 7
    ⟨.str "alice", .str "hi", 7, false⟩ [.connection "c", .userJoin "b" (.str "bob")]
    rfl rfl (by decide) (by decide) rfl).2.1.trans rfl⟩

/-- Claim C8, evaluated at its failing input: `a` and `b` are connected, `a`
sends a message, the write fails, and afterwards `b` announces. The handler
rejects with the save error and nothing catches it: nothing is emitted, so no
report reaches `a`, and the process ends there, so the announce of `b` is
never handled. -/
theorem failed_save_ends_run :
    run ⟨["a", "b"], JSMap.empty, []⟩
      [.messageSend "a" (.obj (.cons "sender" (.str "alice") (.cons "text" (.str "hi") .nil))) 7,
       .saveSettled ⟨.str "alice", .str "hi", 7, false⟩ false,
       .userJoin "b" (.str "bob")] =
      ⟨⟨["a", "b"], JSMap.empty, []⟩, [], some .saveError⟩ ∧
    handled ⟨["a", "b"], JSMap.empty, []⟩
      [.messageSend "a" (.obj (.cons "sender" (.str "alice") (.cons "text" (.str "hi") .nil))) 7,
       .saveSettled ⟨.str "alice", .str "hi", 7, false⟩ false,
       .userJoin "b" (.str "bob")] =
      [.messageSend "a" (.obj (.cons "sender" (.str "alice") (.cons "text" (.str "hi") .nil))) 7,
       .saveSettled ⟨.str "alice", .str "hi", 7, false⟩ false] ∧
    (run ⟨["a", "b"], JSMap.empty, []⟩ [.userJoin "b" (.str "bob")]).emits =
      [Emit.usersUpdate ["a", "b"] [.str "bob"]] ∧
    ¬ ∃ e ∈ (run ⟨["a", "b"], JSMap.empty, []⟩
        [.messageSend "a" (.obj (.cons "sender" (.str "alice") (.cons "text" (.str "hi") .nil))) 7,
         .saveSettled ⟨.str "alice", .str "hi", 7, false⟩ false,
         .userJoin "b" (.str "bob")]).emits, "a" ∈ e.recipients := by
  refine ⟨rfl, rfl, rfl, ?_⟩
  rintro ⟨e, he, -⟩
  have h0 : (run ⟨["a", "b"], JSMap.empty, []⟩
        [.messageSend "a" (.obj (.cons "sender" (.str "alice") (.cons "text" (.str "hi") .nil))) 7,
         .saveSettled ⟨.str "alice", .str "hi", 7, false⟩ false,
         .userJoin "b" (.str "bob")]).emits = [] := rfl
  rw [h0] at he
  cases he

/-- Counterexample to C7 as stated: with `a` and `b` connected and an empty
registry, an announce by `a` whose payload is `undefined` is stored and
broadcast; a message from `a` that lacks `sender` is stored and broadcast
once its save succeeds. Neither is rejected. -/
theorem malformed_payload_not_rejected :
    (handle ⟨["a", "b"], JSMap.empty, []⟩ (.userJoin "a" .undefined)).state.onlineUsers.values
      = [.undefined] ∧
    (handle ⟨["a", "b"], JSMap.empty, []⟩ (.userJoin "a" .undefined)).emits
      = [Emit.usersUpdate ["a", "b"] [.undefined]] ∧
    ¬ ((handle ⟨["a", "b"], JSMap.empty, []⟩ (.userJoin "a" .undefined)).state
        = ⟨["a", "b"], JSMap.empty, []⟩ ∧
       (handle ⟨["a", "b"], JSMap.empty, []⟩ (.userJoin "a" .undefined)).emits = []) ∧
    messageSendBegin (.obj (.cons "text" (.str "hi") .nil)) 7
      = .ok ⟨.undefined, .str "hi", 7, false⟩ ∧
    run ⟨["a", "b"], JSMap.empty, []⟩
      [.messageSend "a" (.obj (.cons "text" (.str "hi") .nil)) 7,
       .saveSettled ⟨.undefined, .str "hi", 7, false⟩ true] =
      ⟨⟨["a", "b"], JSMap.empty, [⟨.undefined, .str "hi", 7, false⟩]⟩,
       [Emit.messageReceive ["a", "b"] ⟨.undefined, .str "hi", 7, false⟩], none⟩ := by
  refine ⟨rfl, rfl, ?_, rfl, rfl⟩
  rintro ⟨-, h⟩
  cases h

/-- Claim C7, amended. Payloads are not validated. An announce with any
payload `d` (`undefined` and `null` included) stores `d` under the connection
and broadcasts the new snapshot to every connected socket. A message whose
payload is an object that lacks `sender`, `text` or both is taken: the
document is built with the lacking field unset and is valid, and once its
write is accepted the document is appended and broadcast to every connected
socket. Every emission of every event is addressed to all the sockets
connected after the event, never to the originating connection alone. -/
theorem payloads_not_validated (s : State) (c : String) (d : JSVal) (x t : String)
    (now : Nat) (e : Event) :
    handle s (.userJoin c d) =
      ⟨{ s with onlineUsers := s.onlineUsers.set c d },
       [Emit.usersUpdate s.sockets (s.onlineUsers.set c d).values], none⟩ ∧
    (s.onlineUsers.set c d).get? c = some d ∧
    messageSendBegin (.obj (.cons "text" (.str t) .nil)) now
      = .ok ⟨.undefined, .str t, now, false⟩ ∧
    messageSendBegin (.obj (.cons "sender" (.str x) .nil)) now
      = .ok ⟨.str x, .undefined, now, false⟩ ∧
    messageSendBegin (.obj .nil) now = .ok ⟨.undefined, .undefined, now, false⟩ ∧
    (∀ fields : JSFields, messageSendBegin (.obj fields) now =
      .ok (newMessage (fields.get "sender") (fields.get "text") now)) ∧
    (∀ v : JSVal, (newMessage .undefined v now).sender = .undefined ∧
      (newMessage .undefined v now).invalid = (castString v).isNone ∧
      (newMessage v .undefined now).text = .undefined ∧
      (newMessage v .undefined now).invalid = (castString v).isNone) ∧
    run s [.messageSend c (.obj (.cons "text" (.str t) .nil)) now,
           .saveSettled ⟨.undefined, .str t, now, false⟩ true] =
      ⟨{ s with messages := s.messages ++ [⟨.undefined, .str t, now, false⟩] },
       [Emit.messageReceive s.sockets ⟨.undefined, .str t, now, false⟩], none⟩ ∧
    run s [.messageSend c (.obj (.cons "sender" (.str x) .nil)) now,
           .saveSettled ⟨.str x, .undefined, now, false⟩ true] =
      ⟨{ s with messages := s.messages ++ [⟨.str x, .undefined, now, false⟩] },
       [Emit.messageReceive s.sockets ⟨.str x, .undefined, now, false⟩], none⟩ ∧
    run s [.messageSend c (.obj .nil) now,
           .saveSettled ⟨.undefined, .undefined, now, false⟩ true] =
      ⟨{ s with messages := s.messages ++ [⟨.undefined, .undefined, now, false⟩] },
       [Emit.messageReceive s.sockets ⟨.undefined, .undefined, now, false⟩], none⟩ ∧
    (handle s e).emits.map Emit.recipients =
      (handle s e).emits.map (fun _ => (handle s e).state.sockets) := by
  refine ⟨rfl, ?_, rfl, rfl, rfl, fun _ => rfl, fun v => ?_, rfl, rfl, rfl, ?_⟩
  · rw [JSMap.get?_set, if_pos rfl]
  · refine ⟨rfl, ?_, rfl, ?_⟩
    · simp [newMessage, castString]
    · simp [newMessage, castString]
  · cases e with
    | connection id => rfl
    | userJoin id d => rfl
    | messageSend id d now =>
      rw [(handle_messageSend_state s id d now).2]; rfl
    | saveSettled m written =>
      rw [handle_saveSettled]
      split_ifs <;> rfl
    | disconnect id => rfl

/-! ## The history listing (claim C4) -/

/-- Counterexample to C4 as stated: `a` sends at time 1, `b` sends at time 2,
the save of `b` completes first and the save of `a` second (every save that
settles was started before, and no handler rejects). The appends completed in
the order `b`, `a`; the stored timestamps along that order are 2, 1; the
listing returns `a` before `b`. -/
theorem listing_differs_from_completion_order :
    awaiting []
      [.connection "a", .connection "b",
       .messageSend "a" (.obj (.cons "sender" (.str "alice") (.cons "text" (.str "one") .nil))) 1,
       .messageSend "b" (.obj (.cons "sender" (.str "bob") (.cons "text" (.str "two") .nil))) 2,
       .saveSettled ⟨.str "bob", .str "two", 2, false⟩ true,
       .saveSettled ⟨.str "alice", .str "one", 1, false⟩ true] = some [] ∧
    (run (State.init [])
      [.connection "a", .connection "b",
       .messageSend "a" (.obj (.cons "sender" (.str "alice") (.cons "text" (.str "one") .nil))) 1,
       .messageSend "b" (.obj (.cons "sender" (.str "bob") (.cons "text" (.str "two") .nil))) 2,
       .saveSettled ⟨.str "bob", .str "two", 2, false⟩ true,
       .saveSettled ⟨.str "alice", .str "one", 1, false⟩ true]).rejection = none ∧
    (run (State.init [])
      [.connection "a", .connection "b",
       .messageSend "a" (.obj (.cons "sender" (.str "alice") (.cons "text" (.str "one") .nil))) 1,
       .messageSend "b" (.obj (.cons "sender" (.str "bob") (.cons "text" (.str "two") .nil))) 2,
       .saveSettled ⟨.str "bob", .str "two", 2, false⟩ true,
       .saveSettled ⟨.str "alice", .str "one", 1, false⟩ true]).state.messages =
      [⟨.str "bob", .str "two", 2, false⟩, ⟨.str "alice", .str "one", 1, false⟩] ∧
    listAll (run (State.init [])
      [.connection "a", .connection "b",
       .messageSend "a" (.obj (.cons "sender" (.str "alice") (.cons "text" (.str "one") .nil))) 1,
       .messageSend "b" (.obj (.cons "sender" (.str "bob") (.cons "text" (.str "two") .nil))) 2,
       .saveSettled ⟨.str "bob", .str "two", 2, false⟩ true,
       .saveSettled ⟨.str "alice", .str "one", 1, false⟩ true]).state =
      [⟨.str "alice", .str "one", 1, false⟩, ⟨.str "bob", .str "two", 2, false⟩] ∧
    ¬ (([⟨.str "bob", .str "two", 2, false⟩, ⟨.str "alice", .str "one", 1, false⟩] :
        List Message).map Message.timestamp).Sorted (fun a b => a ≤ b) := by
  refine ⟨by decide, rfl, rfl, by decide, by decide⟩

/-- Claim C4, amended. After any sequence of events the collection holds, after
what it held before, the documents of the saves that succeeded, in the order
in which they completed. The listing is always a rearrangement of the
collection in non-decreasing order of `timestamp`, the time at which the
handler built the document. When the timestamps are strictly increasing along
the collection, the listing is the collection in its own order. -/
theorem listing_sorted_by_construction_time (s : State) (evs : List Event) :
    (run s evs).state.messages = s.messages ++ (handled s evs).filterMap Event.saved? ∧
    ((listAll (run s evs).state).map Message.timestamp).Sorted (fun a b => a ≤ b) ∧
    (listAll (run s evs).state).Perm (run s evs).state.messages ∧
    (((run s evs).state.messages.map Message.timestamp).Sorted (fun a b => a < b) →
      listAll (run s evs).state = (run s evs).state.messages) := by
  haveI : IsTotal Message (fun a b => a.timestamp ≤ b.timestamp) :=
    ⟨fun a b => Nat.le_total _ _⟩
  haveI : IsTrans Message (fun a b => a.timestamp ≤ b.timestamp) :=
    ⟨fun a b c hab hbc => Nat.le_trans hab hbc⟩
  refine ⟨(run_messages evs s).1, ?_, ?_, ?_⟩
  · unfold List.Sorted
    rw [List.pairwise_map]
    exact List.sorted_insertionSort (fun a b : Message => a.timestamp ≤ b.timestamp) _
  · exact List.perm_insertionSort _ _
  · intro h
    apply List.Sorted.insertionSort_eq
    unfold List.Sorted at h ⊢
    rw [List.pairwise_map] at h
    exact h.imp (fun hab => Nat.le_of_lt hab)

/-- Witness for C4 amended: `a` sends at time 1 and its save completes, then
`b` sends at time 2 and its save completes; the timestamps along the
collection are 1, 2 and the listing is the collection. -/
theorem listing_sorted_by_construction_time_witness :
    ((run (State.init [])
      [.messageSend "a" (.obj (.cons "sender" (.str "alice") (.cons "text" (.str "one") .nil))) 1,
       .saveSettled ⟨.str "alice", .str "one", 1, false⟩ true,
       .messageSend "b" (.obj (.cons "sender" (.str "bob") (.cons "text" (.str "two") .nil))) 2,
       .saveSettled ⟨.str "bob", .str "two", 2, false⟩ true]).state.messages.map
        Message.timestamp).Sorted (fun a b => a < b) ∧
    listAll (run (State.init [])
      [.messageSend "a" (.obj (.cons "sender" (.str "alice") (.cons "text" (.str "one") .nil))) 1,
       .saveSettled ⟨.str "alice", .str "one", 1, false⟩ true,
       .messageSend "b" (.obj (.cons "sender" (.str "bob") (.cons "text" (.str "two") .nil))) 2,
       .saveSettled ⟨.str "bob", .str "two", 2, false⟩ true]).state =
      [⟨.str "alice", .str "one", 1, false⟩, ⟨.str "bob", .str "two", 2, false⟩] :=
  ⟨by decide,
   ((listing_sorted_by_construction_time (State.init []) _).2.2.2 (by decide)).trans rfl⟩

/-! ## The presence set after a run (claim C1) -/

theorem mostRecentAnnounce_eq_none (es : List Event) (c : String) (h : c ∉ announcers es) :
    mostRecentAnnounce es c = none := by
  induction es with
  | nil => rfl
  | cons e es ih =>
    cases e with
    | userJoin id d =>
      have h1 : c ≠ id ∧ c ∉ announcers es := by
        simpa [announcers, List.filterMap_cons] using h
      have h2 : ¬ id = c := fun h3 => h1.1 h3.symm
      simp [mostRecentAnnounce, ih h1.2, h2]
    | connection id =>
      have h1 : c ∉ announcers es := by simpa [announcers, List.filterMap_cons] using h
      simp [mostRecentAnnounce, ih h1]
    | messageSend id d now =>
      have h1 : c ∉ announcers es := by simpa [announcers, List.filterMap_cons] using h
      simp [mostRecentAnnounce, ih h1]
    | saveSettled m saved =>
      have h1 : c ∉ announcers es := by simpa [announcers, List.filterMap_cons] using h
      simp [mostRecentAnnounce, ih h1]
    | disconnect id =>
      have h1 : c ∉ announcers es := by simpa [announcers, List.filterMap_cons] using h
      simp [mostRecentAnnounce, ih h1]

theorem handle_onlineUsers (s : State) (e : Event) :
    (handle s e).state.onlineUsers =
      match e with
      | .userJoin id d => s.onlineUsers.set id d
      | .disconnect id => s.onlineUsers.delete id
      | _ => s.onlineUsers := by
  cases e with
  | connection id => rfl
  | userJoin id d => rfl
  | messageSend id d now => rw [(handle_messageSend_state s id d now).1]
  | saveSettled m written =>
    rw [handle_saveSettled]
    split_ifs <;> rfl
  | disconnect id => rfl

theorem announcers_handled (evs : List Event) (c : String) :
    ∀ s : State, c ∈ announcers (handled s evs) → c ∈ announcers evs := by
  induction evs with
  | nil => intro s h; exact h
  | cons e es ih =>
    intro s h
    cases hr : (handle s e).rejection with
    | some r =>
      rw [handled_cons_some s e es r hr] at h
      cases e with
      | connection id => cases hr
      | userJoin id d => cases hr
      | disconnect id => cases hr
      | messageSend id d now => simp [announcers] at h
      | saveSettled m written => simp [announcers] at h
    | none =>
      rw [handled_cons_none s e es hr] at h
      cases e with
      | userJoin id d =>
        have h1 : c = id ∨ c ∈ announcers (handled (handle s (.userJoin id d)).state es) := by
          simpa [announcers, List.filterMap_cons] using h
        have h2 : c = id ∨ c ∈ announcers es := h1.imp (fun x => x) (ih _)
        simpa [announcers, List.filterMap_cons] using h2
      | connection id =>
        have h1 : c ∈ announcers (handled (handle s (.connection id)).state es) := by
          simpa [announcers, List.filterMap_cons] using h
        simpa [announcers, List.filterMap_cons] using ih _ h1
      | messageSend id d now =>
        have h1 : c ∈ announcers (handled (handle s (.messageSend id d now)).state es) := by
          simpa [announcers, List.filterMap_cons] using h
        simpa [announcers, List.filterMap_cons] using ih _ h1
      | saveSettled m written =>
        have h1 : c ∈ announcers (handled (handle s (.saveSettled m written)).state es) := by
          simpa [announcers, List.filterMap_cons] using h
        simpa [announcers, List.filterMap_cons] using ih _ h1
      | disconnect id =>
        have h1 : c ∈ announcers (handled (handle s (.disconnect id)).state es) := by
          simpa [announcers, List.filterMap_cons] using h
        simpa [announcers, List.filterMap_cons] using ih _ h1

theorem run_get? (evs : List Event) (c : String) :
    ∀ s : State, noAnnounceAfterDisconnect evs = true →
      (run s evs).state.onlineUsers.get? c =
        if disconnected (handled s evs) c then none
        else (mostRecentAnnounce (handled s evs) c).or (s.onlineUsers.get? c) := by
  induction evs with
  | nil => intro s _; simp [run, handled, disconnected, mostRecentAnnounce]
  | cons e es ih =>
    intro s h
    cases hr : (handle s e).rejection with
    | some r =>
      rw [run_cons_some s e es r hr, handled_cons_some s e es r hr]
      cases e with
      | connection id => cases hr
      | userJoin id d => cases hr
      | disconnect id => cases hr
      | messageSend id d now => simp [disconnected, mostRecentAnnounce]
      | saveSettled m written => simp [disconnected, mostRecentAnnounce]
    | none =>
      rw [run_cons_none s e es hr, handled_cons_none s e es hr]
      show (run (handle s e).state es).state.onlineUsers.get? c = _
      cases e with
      | connection id =>
        have h1 : noAnnounceAfterDisconnect es = true := by
          simpa [noAnnounceAfterDisconnect] using h
        rw [ih _ h1, handle_onlineUsers]
        simp only [disconnected, List.any_cons, mostRecentAnnounce]
        cases mostRecentAnnounce (handled (handle s (.connection id)).state es) c <;> simp
      | messageSend id d now =>
        have h1 : noAnnounceAfterDisconnect es = true := by
          simpa [noAnnounceAfterDisconnect] using h
        rw [ih _ h1, handle_onlineUsers]
        simp only [disconnected, List.any_cons, mostRecentAnnounce]
        cases mostRecentAnnounce (handled (handle s (.messageSend id d now)).state es) c <;> simp
      | saveSettled m written =>
        have h1 : noAnnounceAfterDisconnect es = true := by
          simpa [noAnnounceAfterDisconnect] using h
        rw [ih _ h1, handle_onlineUsers]
        simp only [disconnected, List.any_cons, mostRecentAnnounce]
        cases mostRecentAnnounce (handled (handle s (.saveSettled m written)).state es) c <;> simp
      | userJoin id d =>
        have h1 : noAnnounceAfterDisconnect es = true := by
          simpa [noAnnounceAfterDisconnect] using h
        rw [ih _ h1, handle_onlineUsers]
        simp only [disconnected, List.any_cons, mostRecentAnnounce, JSMap.get?_set]
        by_cases hc : c = id
        · subst hc
          cases mostRecentAnnounce (handled (handle s (.userJoin c d)).state es) c <;> simp
        · have hc2 : ¬ id = c := fun h3 => hc h3.symm
          cases mostRecentAnnounce (handled (handle s (.userJoin id d)).state es) c <;>
            simp [hc, hc2]
      | disconnect id =>
        have h1 : id ∉ announcers es ∧ noAnnounceAfterDisconnect es = true := by
          simpa [noAnnounceAfterDisconnect] using h
        rw [ih _ h1.2, handle_onlineUsers]
        simp only [disconnected, List.any_cons, mostRecentAnnounce, JSMap.get?_delete]
        by_cases hc : c = id
        · subst hc
          have hn : c ∉ announcers (handled (handle s (.disconnect c)).state es) :=
            fun hm => h1.1 (announcers_handled es c _ hm)
          simp [mostRecentAnnounce_eq_none _ c hn]
        · have hc2 : ¬ id = c := fun h3 => hc h3.symm
          cases mostRecentAnnounce (handled (handle s (.disconnect id)).state es) c <;>
            simp [hc, hc2]

theorem mem_iff_lookup (es : List (String × JSVal)) (h : (es.map Prod.fst).Nodup)
    (k : String) (v : JSVal) : (k, v) ∈ es ↔ es.lookup k = some v := by
  induction es with
  | nil => simp
  | cons e es ih =>
    obtain ⟨k1, v1⟩ := e
    rw [List.map_cons, List.nodup_cons] at h
    rw [lookup_cons_ite, List.mem_cons, ih h.2]
    by_cases hk : k = k1
    · subst hk
      have hn : es.lookup k = none := (lookup_eq_none_iff_not_mem es k).2 h.1
      simp [hn, eq_comm]
    · simp [hk]

theorem values_perm_filterMap (m : JSMap) (L : List String) (f : String → Option JSVal)
    (hL : L.Nodup) (h : ∀ c, m.get? c = if c ∈ L then f c else none) :
    m.values.Perm (L.filterMap f) := by
  have hp : m.entries.Perm (L.filterMap (fun c => (f c).map (fun v => (c, v)))) := by
    rw [List.perm_ext_iff_of_nodup (List.Nodup.of_map _ m.nodup)]
    · rintro ⟨k, v⟩
      rw [mem_iff_lookup _ m.nodup]
      have hk := h k
      unfold JSMap.get? at hk
      rw [hk, List.mem_filterMap]
      constructor
      · intro h1
        by_cases hm : k ∈ L
        · rw [if_pos hm] at h1
          exact ⟨k, hm, by simp [h1]⟩
        · rw [if_neg hm] at h1; cases h1
      · rintro ⟨a, ha, h1⟩
        cases hfa : f a with
        | none => rw [hfa] at h1; cases h1
        | some w =>
          rw [hfa] at h1
          simp only [Option.map_some', Option.some.injEq, Prod.mk.injEq] at h1
          obtain ⟨rfl, rfl⟩ := h1
          rw [if_pos ha, hfa]
    · apply List.Nodup.filterMap _ hL
      intro a a1 b hb hb1
      cases hfa : f a with
      | none => simp [hfa] at hb
      | some w =>
        cases hfa1 : f a1 with
        | none => simp [hfa1] at hb1
        | some w1 =>
          simp only [hfa, hfa1, Option.map_some', Option.mem_def, Option.some.injEq] at hb hb1
          rw [← hb] at hb1
          exact (Prod.mk.inj hb1).1.symm
  have := hp.map Prod.snd
  rw [List.map_filterMap] at this
  have hf : (fun c => Option.map Prod.snd ((f c).map (fun v => (c, v)))) = f := by
    funext c; cases f c <;> rfl
  rw [hf] at this
  exact this

/-- Claim C1. For every sequence of events in which no connection announces
after its own disconnect, started at process start: the snapshot
`Array.from(onlineUsers.values())` is, up to order, the list of the most
recent announce of each connection that has announced and not disconnected
among the events handled; the registry holds that descriptor for each such
connection and no entry for any other connection (disconnected or never
announced). Connect, announce and disconnect events never reject, and when no
handler rejects every event of the sequence is handled. -/
theorem snapshot_is_latest_announces (stored : List Message) (evs : List Event)
    (h : noAnnounceAfterDisconnect evs = true) :
    (run (State.init stored) evs).state.onlineUsers.values.Perm
      (specSnapshot (handled (State.init stored) evs)) ∧
    (∀ c, (run (State.init stored) evs).state.onlineUsers.get? c =
      if c ∈ announcers (handled (State.init stored) evs) ∧
          disconnected (handled (State.init stored) evs) c = false
      then mostRecentAnnounce (handled (State.init stored) evs) c
      else none) ∧
    ((run (State.init stored) evs).rejection = none →
      handled (State.init stored) evs = evs) ∧
    (∀ (s : State) (id : String) (d : JSVal),
      (handle s (.connection id)).rejection = none ∧
      (handle s (.userJoin id d)).rejection = none ∧
      (handle s (.disconnect id)).rejection = none) := by
  have hget : ∀ c, (run (State.init stored) evs).state.onlineUsers.get? c =
      if c ∈ announcers (handled (State.init stored) evs) ∧
          disconnected (handled (State.init stored) evs) c = false
      then mostRecentAnnounce (handled (State.init stored) evs) c
      else none := by
    intro c
    rw [run_get? evs c _ h]
    have h0 : (State.init stored).onlineUsers.get? c = none := rfl
    rw [h0]
    by_cases hd : disconnected (handled (State.init stored) evs) c = true
    · simp [hd]
    · have hd2 : disconnected (handled (State.init stored) evs) c = false := by simpa using hd
      by_cases ha : c ∈ announcers (handled (State.init stored) evs)
      · simp [hd2, ha]
      · simp [hd2, ha, mostRecentAnnounce_eq_none _ c ha]
  refine ⟨?_, hget, handled_eq_self evs _, fun _ _ _ => ⟨rfl, rfl, rfl⟩⟩
  apply values_perm_filterMap
  · exact (List.nodup_dedup _).filter _
  · intro c
    rw [hget c]
    simp only [List.mem_filter, List.mem_dedup, Bool.not_eq_true', Bool.not_eq_eq_eq_not,
      Bool.not_true]

/-- Witness for C1: `a` and `b` connect, `a` announces alice, `b` announces
bob, `a` announces again as alice2, `b` disconnects. Every event is handled
and the snapshot is the one descriptor alice2. -/
theorem snapshot_is_latest_announces_witness :
    noAnnounceAfterDisconnect
      [.connection "a", .connection "b", .userJoin "a" (.str "alice"),
       .userJoin "b" (.str "bob"), .userJoin "a" (.str "alice2"), .disconnect "b"] = true ∧
    handled (State.init [])
      [.connection "a", .connection "b", .userJoin "a" (.str "alice"),
       .userJoin "b" (.str "bob"), .userJoin "a" (.str "alice2"), .disconnect "b"] =
      [.connection "a", .connection "b", .userJoin "a" (.str "alice"),
       .userJoin "b" (.str "bob"), .userJoin "a" (.str "alice2"), .disconnect "b"] ∧
    specSnapshot
      [.connection "a", .connection "b", .userJoin "a" (.str "alice"),
       .userJoin "b" (.str "bob"), .userJoin "a" (.str "alice2"), .disconnect "b"] =
      [.str "alice2"] ∧
    (run (State.init [])
      [.connection "a", .connection "b", .userJoin "a" (.str "alice"),
       .userJoin "b" (.str "bob"), .userJoin "a" (.str "alice2"),
       .disconnect "b"]).state.onlineUsers.values.Perm
      (specSnapshot (handled (State.init [])
        [.connection "a", .connection "b", .userJoin "a" (.str "alice"),
         .userJoin "b" (.str "bob"), .userJoin "a" (.str "alice2"), .disconnect "b"])) :=
  ⟨by decide, rfl, by decide, (snapshot_is_latest_announces [] _ (by decide)).1⟩

end AsyncChat
